import Mathlib

/-!
# Verification of the mutation-generation engine

A shallow embedding of the mutation-test generator: the mutation operator
catalog, the four collector passes, per-file aggregation with id seeding,
and the signature-based grouping engine, together with proofs of the
specification's claims about them.

The syntax tree provider (ts-morph) is external to the engine; we model a
parsed file as its full text plus the pre-order sequence of tree nodes that
`forEachDescendant` visits, where each node carries the classification and
accessor data the collectors actually read (kind, text, start/end offsets,
and for binary expressions the operator token, for `if` statements the
guard condition's text and offsets).
-/

namespace MutGen

/-- 1-based line/column position, as returned by
`sourceFile.getLineAndColumnAtPos`. -/
structure LineCol where
  line : Nat
  column : Nat
deriving DecidableEq, Repr

/-- `{ start, end }` location of a mutant.  The source field `end` is a Lean
keyword, so it is called `stop` here. -/
structure Location where
  start : LineCol
  stop : LineCol
deriving DecidableEq, Repr

/-- The `MutantInfo` record of the source.  `expressionText` is an optional
field (`expressionText?: string`), hence `Option String`. -/
structure MutantInfo where
  id : String
  fileName : String
  mutatorName : String
  original : String
  replacement : String
  location : Location
  context : String
  description : String
  expressionText : Option String
deriving DecidableEq, Repr

/-- Data of a token as read off a ts-morph node: `getText()`, `getStart()`,
`getEnd()` (offsets into the file's full text). -/
structure TokenInfo where
  text : String
  startPos : Nat
  endPos : Nat
deriving DecidableEq, Repr

/-- The node classifications the collectors test for
(`Node.isBinaryExpression`, `Node.isPrefixUnaryExpression`,
`Node.isTrueLiteral || Node.isFalseLiteral`, `Node.isIfStatement`), with
the per-kind accessors used: the operator token of a binary expression,
the numeric `SyntaxKind` of a prefix-unary operator token, and the guard
condition (`node.getExpression()`) of an `if` statement. -/
inductive NodeKind where
  | binaryExpr (opToken : TokenInfo)
  | prefixUnary (operatorKind : Nat)
  | boolLit
  | ifStmt (condition : TokenInfo)
  | other
deriving DecidableEq, Repr

/-- A tree node as the collectors see it: classification plus
`getText()`, `getStart()`, `getEnd()`. -/
structure STNode where
  kind : NodeKind
  text : String
  startPos : Nat
  endPos : Nat
deriving DecidableEq, Repr

/-- A parsed source file: full text plus the pre-order node sequence that
`forEachDescendant` visits. -/
structure SourceFile where
  fullText : String
  nodes : List STNode
deriving DecidableEq, Repr

/-! ## String helpers (embedding of the JS string operations used) -/

/-- JS `text.split(sep)` for a single-character separator, over char lists.
`"".split("\n") = [""]`, hence the empty list maps to `[[]]`. -/
def splitOnChar (sep : Char) : List Char → List (List Char)
  | [] => [[]]
  | c :: rest =>
    match splitOnChar sep rest with
    | [] => if c = sep then [[], []] else [[c]]
    | line :: more =>
      if c = sep then [] :: line :: more else (c :: line) :: more

/-- `sourceFile.getLineAndColumnAtPos(pos)`: 1-based line and column of a
character offset. -/
def getLineAndColumnAtPos (text : String) (pos : Nat) : LineCol :=
  let before := text.data.take pos
  { line := before.count '\n' + 1,
    column := (before.reverse.takeWhile (fun c => c != '\n')).length + 1 }

/-- `path.basename`: the last nonempty `/`-separated component. -/
def basename (p : String) : String :=
  match ((splitOnChar '/' p.data).filter (fun s => s ≠ [])).reverse with
  | [] => p
  | last :: _ => String.mk last

/-- The id string assigned to the `k`-th mutant (1-based) of a file:
`` `${path.basename(fileName)}-${++id}` ``. -/
def mkId (fileName : String) (k : Nat) : String :=
  basename fileName ++ "-" ++ Nat.repr k

/-! ## Mutation operator catalog -/

/-- The `BINARY_OPERATOR_MUTATIONS` table: operator text to its list of
replacement operators; `none` for operators not in the table. -/
def BINARY_OPERATOR_MUTATIONS (op : String) : Option (List String) :=
  if op = "+" then some ["-"]
  else if op = "-" then some ["+"]
  else if op = "*" then some ["/"]
  else if op = "/" then some ["*"]
  else if op = "%" then some ["*"]
  else if op = "===" then some ["!=="]
  else if op = "!==" then some ["==="]
  else if op = "==" then some ["!="]
  else if op = "!=" then some ["=="]
  else if op = ">" then some [">=", "<", "<="]
  else if op = "<" then some ["<=", ">", ">="]
  else if op = ">=" then some [">", "<", "<="]
  else if op = "<=" then some ["<", ">", ">="]
  else if op = "&&" then some ["||"]
  else if op = "||" then some ["&&"]
  else none

/-- The numeric `ts.SyntaxKind` values used as keys of
`UNARY_OPERATOR_MUTATIONS` (opaque handles; only their distinctness
matters to the engine). -/
def SyntaxKindPlusToken : Nat := 40

def SyntaxKindMinusToken : Nat := 41

def SyntaxKindPlusPlusToken : Nat := 46

def SyntaxKindMinusMinusToken : Nat := 47

def SyntaxKindExclamationToken : Nat := 54

/-- The `UNARY_OPERATOR_MUTATIONS` table: operator `SyntaxKind` to
`{ original, replacements }`. -/
def UNARY_OPERATOR_MUTATIONS (kind : Nat) : Option (String × List String) :=
  if kind = SyntaxKindExclamationToken then some ("!", [""])
  else if kind = SyntaxKindMinusToken then some ("-", [""])
  else if kind = SyntaxKindPlusToken then some ("+", ["-"])
  else if kind = SyntaxKindPlusPlusToken then some ("++", ["--"])
  else if kind = SyntaxKindMinusMinusToken then some ("--", ["++"])
  else none

/-! ## Context and descriptions -/

/-- `sourceFile.getEndLineNumber()`: the line number of the end of
the file. -/
def sourceEndLineNumber (sf : SourceFile) : Nat :=
  (getLineAndColumnAtPos sf.fullText sf.fullText.length).line

/-- `getContext(sourceFile, node, lines = 2)`: the window of full-text
lines from `max(1, startLine - lines)` to
`min(endOfFileLine, endLine + lines)`, joined with newlines. -/
def getContext (sf : SourceFile) (node : STNode) (lines : Nat) : String :=
  let startLine := max 1 ((getLineAndColumnAtPos sf.fullText node.startPos).line - lines)
  let endLine := min (sourceEndLineNumber sf)
      ((getLineAndColumnAtPos sf.fullText node.endPos).line + lines)
  let allLines := splitOnChar '\n' sf.fullText.data
  String.mk (List.intercalate ['\n']
    ((allLines.drop (startLine - 1)).take (endLine - (startLine - 1))))

/-- `describeMutation`: per-category description template.  The
`UnaryOperator` template tests JS truthiness of `replacement`, i.e.
non-emptiness. -/
def describeMutation (mutatorName original replacement : String) : String :=
  if mutatorName = "BinaryOperator" then
    "Change operator \"" ++ original ++ "\" to \"" ++ replacement ++ "\""
  else if mutatorName = "UnaryOperator" then
    if replacement ≠ "" then
      "Change unary \"" ++ original ++ "\" to \"" ++ replacement ++ "\""
    else
      "Remove unary operator \"" ++ original ++ "\""
  else if mutatorName = "BooleanLiteral" then
    "Flip boolean from " ++ original ++ " to " ++ replacement
  else if mutatorName = "ConditionalRemoval" then
    "Remove conditional - always take " ++ replacement ++ " branch"
  else if mutatorName = "BoundaryCondition" then
    "Change boundary: \"" ++ original ++ "\" to \"" ++ replacement ++ "\""
  else
    mutatorName ++ ": \"" ++ original ++ "\" â†’ \"" ++ replacement ++ "\""

/-! ## Collector passes

Each pass walks the node sequence once, threading the per-file id counter
(`let id = ...; ... ++id`), and appends the mutants produced by each node.
`collectAux` is the common walk; the per-node producers below embed the
body of the corresponding `if (Node.isX(node)) { ... }` branch.  A node
whose kind or operator matches no table entry contributes `[]`. -/

/-- One mutant pushed by the binary-expression pass for replacement
`repl`, with numeric id `idNum` (the value of `++id`). -/
def mkBinaryMutant (sf : SourceFile) (fileName : String) (node : STNode)
    (opToken : TokenInfo) (repl : String) (idNum : Nat) : MutantInfo :=
  let isBoundary := ([">", "<", ">=", "<="] : List String).contains opToken.text
  let mutatorName := if isBoundary then "BoundaryCondition" else "BinaryOperator"
  { id := mkId fileName idNum,
    fileName := fileName,
    mutatorName := mutatorName,
    original := opToken.text,
    replacement := repl,
    location := { start := getLineAndColumnAtPos sf.fullText opToken.startPos,
                  stop := getLineAndColumnAtPos sf.fullText opToken.endPos },
    context := getContext sf node 2,
    description := describeMutation mutatorName opToken.text repl,
    expressionText := some node.text }

/-- `for (const replacement of mutations) { ... push(... ++id ...) }`:
one mutant per replacement, incrementing the counter each time. -/
def mutantsFromReplacements (mk : String → Nat → MutantInfo) :
    List String → Nat → List MutantInfo
  | [], _ => []
  | repl :: rest, idAcc =>
    mk repl (idAcc + 1) :: mutantsFromReplacements mk rest (idAcc + 1)

/-- Mutants the binary-expression pass produces for one node, given the
counter value before visiting it. -/
def binaryMutantsForNode (sf : SourceFile) (fileName : String)
    (node : STNode) (idAcc : Nat) : List MutantInfo :=
  match node.kind with
  | NodeKind.binaryExpr opToken =>
    match BINARY_OPERATOR_MUTATIONS opToken.text with
    | some mutations =>
      mutantsFromReplacements (mkBinaryMutant sf fileName node opToken) mutations idAcc
    | none => []
  | _ => []

/-- One mutant pushed by the unary pass: location spans the operator token
(`node.getStart()` to `getStart() + original.length`), and an empty table
replacement is rendered `"(removed)"` (JS `replacement || "(removed)"`)
while the description receives the raw replacement. -/
def mkUnaryMutant (sf : SourceFile) (fileName : String) (node : STNode)
    (original : String) (repl : String) (idNum : Nat) : MutantInfo :=
  { id := mkId fileName idNum,
    fileName := fileName,
    mutatorName := "UnaryOperator",
    original := original,
    replacement := if repl = "" then "(removed)" else repl,
    location := { start := getLineAndColumnAtPos sf.fullText node.startPos,
                  stop := getLineAndColumnAtPos sf.fullText (node.startPos + original.length) },
    context := getContext sf node 2,
    description := describeMutation "UnaryOperator" original repl,
    expressionText := some node.text }

/-- Mutants the unary pass produces for one node. -/
def unaryMutantsForNode (sf : SourceFile) (fileName : String)
    (node : STNode) (idAcc : Nat) : List MutantInfo :=
  match node.kind with
  | NodeKind.prefixUnary opKind =>
    match UNARY_OPERATOR_MUTATIONS opKind with
    | some entry =>
      mutantsFromReplacements (mkUnaryMutant sf fileName node entry.1) entry.2 idAcc
    | none => []
  | _ => []

/-- Mutants the boolean-literal pass produces for one node: exactly one,
flipping the literal's text. -/
def booleanMutantsForNode (sf : SourceFile) (fileName : String)
    (node : STNode) (idAcc : Nat) : List MutantInfo :=
  match node.kind with
  | NodeKind.boolLit =>
    let original := node.text
    let replacement := if original = "true" then "false" else "true"
    [{ id := mkId fileName (idAcc + 1),
       fileName := fileName,
       mutatorName := "BooleanLiteral",
       original := original,
       replacement := replacement,
       location := { start := getLineAndColumnAtPos sf.fullText node.startPos,
                     stop := getLineAndColumnAtPos sf.fullText node.endPos },
       context := getContext sf node 2,
       description := describeMutation "BooleanLiteral" original replacement,
       expressionText := some node.text }]
  | _ => []

/-- Mutants the conditional pass produces for one `if` statement: two, both
with the guard condition's text as `original` and with location spanning
the condition (`condition.getStart()` to `condition.getEnd()`), context
with 3 lines of padding. -/
def conditionalMutantsForNode (sf : SourceFile) (fileName : String)
    (node : STNode) (idAcc : Nat) : List MutantInfo :=
  match node.kind with
  | NodeKind.ifStmt condition =>
    [{ id := mkId fileName (idAcc + 1),
       fileName := fileName,
       mutatorName := "ConditionalRemoval",
       original := condition.text,
       replacement := "true (always if-branch)",
       location := { start := getLineAndColumnAtPos sf.fullText condition.startPos,
                     stop := getLineAndColumnAtPos sf.fullText condition.endPos },
       context := getContext sf node 3,
       description := describeMutation "ConditionalRemoval" condition.text "if-branch",
       expressionText := some condition.text },
     { id := mkId fileName (idAcc + 2),
       fileName := fileName,
       mutatorName := "ConditionalRemoval",
       original := condition.text,
       replacement := "false (always else-branch)",
       location := { start := getLineAndColumnAtPos sf.fullText condition.startPos,
                     stop := getLineAndColumnAtPos sf.fullText condition.endPos },
       context := getContext sf node 3,
       description := describeMutation "ConditionalRemoval" condition.text "else-branch",
       expressionText := some condition.text }]
  | _ => []

/-- The common `forEachDescendant` walk of a pass: visit nodes in order,
threading the id counter (incremented once per mutant pushed). -/
def collectAux (f : STNode → Nat → List MutantInfo) :
    List STNode → Nat → List MutantInfo
  | [], _ => []
  | node :: rest, idAcc =>
    let ms := f node idAcc
    ms ++ collectAux f rest (idAcc + ms.length)

/-- `collectBinaryMutations(sourceFile, fileName)`: counter starts at 0. -/
def collectBinaryMutations (sf : SourceFile) (fileName : String) : List MutantInfo :=
  collectAux (binaryMutantsForNode sf fileName) sf.nodes 0

/-- `collectUnaryMutations(sourceFile, fileName, startId)`. -/
def collectUnaryMutations (sf : SourceFile) (fileName : String) (startId : Nat) :
    List MutantInfo :=
  collectAux (unaryMutantsForNode sf fileName) sf.nodes startId

/-- `collectBooleanMutations(sourceFile, fileName, startId)`. -/
def collectBooleanMutations (sf : SourceFile) (fileName : String) (startId : Nat) :
    List MutantInfo :=
  collectAux (booleanMutantsForNode sf fileName) sf.nodes startId

/-- `collectConditionalMutations(sourceFile, fileName, startId)`. -/
def collectConditionalMutations (sf : SourceFile) (fileName : String) (startId : Nat) :
    List MutantInfo :=
  collectAux (conditionalMutantsForNode sf fileName) sf.nodes startId

/-- The per-file body of `generateMutants`: the four passes in the fixed
category order, each seeded with the count of mutants already produced
(`currentId += ...length`). -/
def collectMutantsForFile (sf : SourceFile) (fileName : String) : List MutantInfo :=
  let binaryMutants := collectBinaryMutations sf fileName
  let unaryMutants := collectUnaryMutations sf fileName binaryMutants.length
  let booleanMutants :=
    collectBooleanMutations sf fileName (binaryMutants.length + unaryMutants.length)
  let conditionalMutants :=
    collectConditionalMutations sf fileName
      (binaryMutants.length + unaryMutants.length + booleanMutants.length)
  binaryMutants ++ unaryMutants ++ booleanMutants ++ conditionalMutants

/-! ## Aggregation over a set of candidate files

`generateMutants` filters the candidate list with `fs.existsSync`, then
parses each remaining file and concatenates its per-file mutants.  The
syntax-tree provider is external; we model its outcome for a candidate
file as `parsed : Option SourceFile` (`none` = the provider fails, i.e.
`project.addSourceFileAtPath` throws).  The engine has no handler around
that call, so a provider failure propagates as an error. -/

structure CandidateFile where
  path : String
  existsOnDisk : Bool
  parsed : Option SourceFile
deriving DecidableEq, Repr

/-- The `for (const filePath of filePaths)` loop of `generateMutants`. -/
def generateMutantsLoop : List CandidateFile → Except String (List MutantInfo)
  | [] => Except.ok []
  | f :: rest =>
    match f.parsed with
    | none => Except.error f.path
    | some sf =>
      match generateMutantsLoop rest with
      | Except.error e => Except.error e
      | Except.ok restMs => Except.ok (collectMutantsForFile sf f.path ++ restMs)

/-- `generateMutants`: drop candidates that do not exist, return `[]` for an
empty candidate set, otherwise run the per-file loop. -/
def generateMutants (files : List CandidateFile) : Except String (List MutantInfo) :=
  let filePaths := files.filter (fun f => f.existsOnDisk)
  if filePaths.length = 0 then Except.ok []
  else generateMutantsLoop filePaths

/-! ## Grouping engine -/

/-- JS `\s` whitespace (the character classes relevant to source text). -/
def isJsWhitespace (c : Char) : Bool :=
  c = ' ' || c = '\t' || c = '\n' || c = '\r' ||
  c = '\x0b' || c = '\x0c' || c = ' '

/-- `replace(/\s+/g, " ")` over a char list: each maximal whitespace run
becomes one space.  `prevWs` records whether the previous character was
part of a whitespace run already replaced. -/
def collapseWsAux : Bool → List Char → List Char
  | _, [] => []
  | prevWs, c :: rest =>
    if isJsWhitespace c then
      if prevWs then collapseWsAux true rest
      else ' ' :: collapseWsAux true rest
    else c :: collapseWsAux false rest

/-- `trim()` over a char list: strip leading and trailing whitespace. -/
def trimChars (l : List Char) : List Char :=
  ((l.dropWhile isJsWhitespace).reverse.dropWhile isJsWhitespace).reverse

/-- `exprText.replace(/\s+/g, " ").trim()`. -/
def normalizeWs (s : String) : String :=
  String.mk (trimChars (collapseWsAux false s.data))

/-- `mutant.expressionText || mutant.original`: JS falsiness, so an absent
expression text and an empty-string expression text both fall back to
`original`. -/
def exprTextOrOriginal (m : MutantInfo) : String :=
  match m.expressionText with
  | none => m.original
  | some s => if s = "" then m.original else s

/-- The grouping signature:
`` `${mutatorName}|${original}|${replacement}|${normalized}` ``. -/
def mkSignature (m : MutantInfo) : String :=
  m.mutatorName ++ "|" ++ m.original ++ "|" ++ m.replacement ++ "|" ++
    normalizeWs (exprTextOrOriginal m)

/-- The `MutantGroup` record of the source. -/
structure MutantGroup where
  signature : String
  mutatorName : String
  original : String
  replacement : String
  description : String
  expressionText : String
  instances : List MutantInfo
deriving DecidableEq, Repr

/-- The group created when a signature is first seen, with this mutant as
representative first instance. -/
def mkGroup (m : MutantInfo) : MutantGroup :=
  { signature := mkSignature m,
    mutatorName := m.mutatorName,
    original := m.original,
    replacement := m.replacement,
    description := m.description,
    expressionText := normalizeWs (exprTextOrOriginal m),
    instances := [m] }

/-- One step of the grouping loop: `groups.get(signature)` followed by
either `existing.instances.push(mutant)` or `groups.set(signature, ...)`.
The JS `Map` keeps keys unique in insertion order, so it is modelled as an
ordered list of groups with distinct signatures: update the matching entry
in place, or append a new one at the end. -/
def addMutant : List MutantGroup → MutantInfo → List MutantGroup
  | [], m => [mkGroup m]
  | g :: gs, m =>
    if g.signature = mkSignature m then
      { g with instances := g.instances ++ [m] } :: gs
    else
      g :: addMutant gs m

/-- `groupMutantsBySignature(mutants)`: fold the loop over the mutant
sequence; `Array.from(groups.values())` returns the groups in key
insertion order, which the list order maintains. -/
def groupMutantsBySignature (mutants : List MutantInfo) : List MutantGroup :=
  mutants.foldl addMutant []

/-- Modelled from the spec: the order in which distinct values are first
seen in a sequence ("Group ordering in the output follows the order in
which each signature was first seen").  Used only to state the claims
about group ordering; the source computes it implicitly through `Map`
insertion order. -/
def firstSeen (l : List String) : List String :=
  l.foldl (fun acc s => if s ∈ acc then acc else acc ++ [s]) []

/-! ## Lemmas about the grouping engine -/

theorem firstSeen_append_singleton (l : List String) (a : String) :
    firstSeen (l ++ [a]) =
      if a ∈ firstSeen l then firstSeen l else firstSeen l ++ [a] := by
  simp [firstSeen, List.foldl_append]

theorem mem_firstSeen (l : List String) : ∀ a, a ∈ firstSeen l ↔ a ∈ l := by
  induction l using List.reverseRecOn with
  | nil => simp [firstSeen]
  | append_singleton l b ih =>
    intro a
    rw [firstSeen_append_singleton]
    by_cases hb : b ∈ firstSeen l
    · have hbl : b ∈ l := (ih b).mp hb
      rw [if_pos hb, ih]
      simp only [List.mem_append, List.mem_singleton]
      constructor
      · exact fun h => Or.inl h
      · rintro (h | rfl)
        · exact h
        · exact hbl
    · rw [if_neg hb]
      simp [ih]

theorem firstSeen_nodup (l : List String) : (firstSeen l).Nodup := by
  induction l using List.reverseRecOn with
  | nil => simp [firstSeen]
  | append_singleton l b ih =>
    rw [firstSeen_append_singleton]
    by_cases hb : b ∈ firstSeen l
    · rwa [if_pos hb]
    · rw [if_neg hb]
      simp [List.nodup_append, ih, hb]

theorem addMutant_map_signature (gs : List MutantGroup) (m : MutantInfo) :
    (addMutant gs m).map (fun g => g.signature) =
      if mkSignature m ∈ gs.map (fun g => g.signature) then
        gs.map (fun g => g.signature)
      else gs.map (fun g => g.signature) ++ [mkSignature m] := by
  induction gs with
  | nil => simp [addMutant, mkGroup]
  | cons g gs ih =>
    by_cases hg : g.signature = mkSignature m
    · have hmem : mkSignature m ∈ (g :: gs).map (fun g2 => g2.signature) := by
        simp [← hg]
      rw [if_pos hmem]
      simp [addMutant, hg]
    · by_cases hmem : mkSignature m ∈ gs.map (fun g2 => g2.signature)
      · have hmem2 : mkSignature m ∈ (g :: gs).map (fun g2 => g2.signature) := by
          simp only [List.map_cons, List.mem_cons]
          exact Or.inr hmem
        rw [if_pos hmem2]
        simp only [addMutant, if_neg hg, List.map_cons, ih, if_pos hmem]
      · have hmem2 : mkSignature m ∉ (g :: gs).map (fun g2 => g2.signature) := by
          simp only [List.map_cons, List.mem_cons]
          rintro (h | h)
          · exact hg h.symm
          · exact hmem h
        rw [if_neg hmem2]
        simp only [addMutant, if_neg hg, List.map_cons, ih, if_neg hmem, List.cons_append]

theorem addMutant_instances (gs : List MutantGroup) (m : MutantInfo)
    (F : String → List MutantInfo)
    (hnd : (gs.map (fun g => g.signature)).Nodup)
    (hF : ∀ g ∈ gs, g.instances = F g.signature)
    (hfresh : mkSignature m ∉ gs.map (fun g => g.signature) →
      F (mkSignature m) = []) :
    ∀ gg ∈ addMutant gs m,
      gg.instances =
        if gg.signature = mkSignature m then F (mkSignature m) ++ [m]
        else F gg.signature := by
  induction gs with
  | nil =>
    intro gg hgg
    simp only [addMutant, List.mem_singleton] at hgg
    subst hgg
    show [m] = if mkSignature m = mkSignature m then F (mkSignature m) ++ [m]
      else F (mkSignature m)
    rw [if_pos rfl, hfresh (by simp)]
    rfl
  | cons g gs ih =>
    intro gg hgg
    by_cases hg : g.signature = mkSignature m
    · simp only [addMutant, if_pos hg, List.mem_cons] at hgg
      rcases hgg with rfl | hmem
      · show g.instances ++ [m] =
          if g.signature = mkSignature m then F (mkSignature m) ++ [m]
          else F g.signature
        rw [if_pos hg, hF g (List.mem_cons_self g gs), hg]
      · have hgsig : gg.signature ≠ mkSignature m := by
          intro heq
          have : g.signature ∈ gs.map (fun g => g.signature) := by
            rw [hg, ← heq]
            exact List.mem_map_of_mem _ hmem
          exact (List.nodup_cons.mp (by simpa using hnd)).1 this
        rw [if_neg hgsig]
        exact hF gg (List.mem_cons_of_mem _ hmem)
    · simp only [addMutant, if_neg hg, List.mem_cons] at hgg
      rcases hgg with rfl | hmem
      · rw [if_neg hg]
        exact hF gg (List.mem_cons_self _ _)
      · exact ih (List.nodup_cons.mp (by simpa using hnd)).2
          (fun g2 hg2 => hF g2 (List.mem_cons_of_mem _ hg2))
          (fun hni => hfresh (by
            simp only [List.map_cons, List.mem_cons]
            rintro (h | h)
            · exact hg h.symm
            · exact hni h))
          gg hmem

theorem groupMutants_fold_snoc (ms : List MutantInfo) (m : MutantInfo) :
    groupMutantsBySignature (ms ++ [m]) =
      addMutant (groupMutantsBySignature ms) m := by
  simp [groupMutantsBySignature, List.foldl_append]

/-- Central characterization of the grouping engine: the output groups
carry the distinct signatures in first-seen order, and each group's
instances are exactly the input mutants with its signature, in input
order. -/
theorem groupMutants_characterization (ms : List MutantInfo) :
    ((groupMutantsBySignature ms).map (fun g => g.signature)
        = firstSeen (ms.map mkSignature))
    ∧ ∀ g ∈ groupMutantsBySignature ms,
        g.instances = ms.filter (fun mm => mkSignature mm = g.signature) := by
  induction ms using List.reverseRecOn with
  | nil => exact ⟨rfl, by simp [groupMutantsBySignature]⟩
  | append_singleton ms m ih =>
    obtain ⟨ihsig, ihinst⟩ := ih
    have hnd : ((groupMutantsBySignature ms).map (fun g => g.signature)).Nodup := by
      rw [ihsig]; exact firstSeen_nodup _
    constructor
    · rw [groupMutants_fold_snoc, addMutant_map_signature, ihsig, List.map_append,
        List.map_singleton, firstSeen_append_singleton]
    · intro g hg
      rw [groupMutants_fold_snoc] at hg
      have hfresh : mkSignature m ∉ (groupMutantsBySignature ms).map (fun g => g.signature) →
          ms.filter (fun mm => mkSignature mm = mkSignature m) = [] := by
        intro hnotin
        rw [ihsig, mem_firstSeen] at hnotin
        rw [List.filter_eq_nil_iff]
        intro mm hmm
        simp only [decide_eq_true_eq]
        intro heq
        exact hnotin (heq ▸ List.mem_map_of_mem mkSignature hmm)
      have hchar := addMutant_instances (groupMutantsBySignature ms) m
        (fun s => ms.filter (fun mm => mkSignature mm = s)) hnd ihinst hfresh g hg
      rw [hchar, List.filter_append]
      by_cases hgs : g.signature = mkSignature m
      · rw [if_pos hgs, hgs]
        simp
      · rw [if_neg hgs]
        have : (([m] : List MutantInfo).filter (fun mm => mkSignature mm = g.signature)) = [] := by
          simp only [List.filter_cons, List.filter_nil, decide_eq_true_eq]
          rw [if_neg (fun h => hgs h.symm)]
        rw [this, List.append_nil]

theorem sig_mem_groups (ms : List MutantInfo) (m : MutantInfo) (hm : m ∈ ms) :
    ∃ g ∈ groupMutantsBySignature ms, g.signature = mkSignature m := by
  have h1 := (groupMutants_characterization ms).1
  have hmem : mkSignature m ∈ (groupMutantsBySignature ms).map (fun g => g.signature) := by
    rw [h1, mem_firstSeen]
    exact List.mem_map_of_mem mkSignature hm
  obtain ⟨g, hg, hge⟩ := List.mem_map.mp hmem
  exact ⟨g, hg, hge⟩

theorem mem_instances_iff (ms : List MutantInfo) (g : MutantGroup)
    (hg : g ∈ groupMutantsBySignature ms) (m : MutantInfo) :
    m ∈ g.instances ↔ m ∈ ms ∧ mkSignature m = g.signature := by
  rw [(groupMutants_characterization ms).2 g hg, List.mem_filter]
  simp

/-- Two mutants of the input sequence land in a common group exactly when
their signature strings agree. -/
theorem sameGroup_iff_signature (ms : List MutantInfo) (m1 m2 : MutantInfo)
    (h1 : m1 ∈ ms) (h2 : m2 ∈ ms) :
    (∃ g ∈ groupMutantsBySignature ms, m1 ∈ g.instances ∧ m2 ∈ g.instances)
      ↔ mkSignature m1 = mkSignature m2 := by
  constructor
  · rintro ⟨g, hg, hm1, hm2⟩
    have e1 := ((mem_instances_iff ms g hg m1).mp hm1).2
    have e2 := ((mem_instances_iff ms g hg m2).mp hm2).2
    rw [e1, e2]
  · intro heq
    obtain ⟨g, hg, hge⟩ := sig_mem_groups ms m1 h1
    refine ⟨g, hg, ?_, ?_⟩
    · exact (mem_instances_iff ms g hg m1).mpr ⟨h1, hge.symm⟩
    · exact (mem_instances_iff ms g hg m2).mpr ⟨h2, heq ▸ hge.symm⟩

theorem addMutant_join_perm (gs : List MutantGroup) (m : MutantInfo) :
    (((addMutant gs m).map (fun g => g.instances)).flatten).Perm
      (m :: ((gs.map (fun g => g.instances)).flatten)) := by
  induction gs with
  | nil => simp [addMutant, mkGroup]
  | cons g gs ih =>
    by_cases hg : g.signature = mkSignature m
    · simp only [addMutant, if_pos hg, List.map_cons, List.flatten_cons]
      have : g.instances ++ [m] ++ (gs.map (fun g => g.instances)).flatten
          = g.instances ++ (m :: (gs.map (fun g => g.instances)).flatten) := by
        simp
      rw [this]
      exact List.perm_middle
    · simp only [addMutant, if_neg hg, List.map_cons, List.flatten_cons]
      exact ((ih.append_left g.instances).trans List.perm_middle)

theorem groupMutants_join_perm (ms : List MutantInfo) :
    (((groupMutantsBySignature ms).map (fun g => g.instances)).flatten).Perm ms := by
  induction ms using List.reverseRecOn with
  | nil => simp [groupMutantsBySignature]
  | append_singleton ms m ih =>
    rw [groupMutants_fold_snoc]
    exact ((addMutant_join_perm _ m).trans (ih.cons m)).trans
      (List.perm_append_singleton m ms).symm

/-! ## Injectivity of decimal rendering

The id strings embed a decimal counter via `Nat.repr`; to show ids within
a file never collide we prove `Nat.repr` injective, by exhibiting the
evaluation map on digit strings as a left inverse. -/

/-- Numeric value of a decimal digit character. -/
def charVal (c : Char) : Nat :=
  if c = '0' then 0 else if c = '1' then 1 else if c = '2' then 2
  else if c = '3' then 3 else if c = '4' then 4 else if c = '5' then 5
  else if c = '6' then 6 else if c = '7' then 7 else if c = '8' then 8
  else if c = '9' then 9 else 10

theorem charVal_digitChar (d : Nat) (hd : d < 10) :
    charVal (Nat.digitChar d) = d := by
  interval_cases d <;> decide

/-- Value of a big-endian decimal digit string. -/
def digitsVal (l : List Char) : Nat :=
  l.foldl (fun acc c => 10 * acc + charVal c) 0

theorem digitsVal_append_singleton (l : List Char) (c : Char) :
    digitsVal (l ++ [c]) = 10 * digitsVal l + charVal c := by
  simp [digitsVal, List.foldl_append]

theorem toDigitsCore_append (b : Nat) :
    ∀ (fuel n : Nat) (ds : List Char),
      Nat.toDigitsCore b fuel n ds = Nat.toDigitsCore b fuel n [] ++ ds := by
  intro fuel
  induction fuel with
  | zero => intro n ds; simp [Nat.toDigitsCore]
  | succ fuel ih =>
    intro n ds
    simp only [Nat.toDigitsCore]
    by_cases h : n / b = 0
    · simp [h]
    · rw [if_neg h, if_neg h, ih (n / b) (Nat.digitChar (n % b) :: ds),
        ih (n / b) [Nat.digitChar (n % b)], List.append_assoc]
      rfl

theorem toDigitsCore_fuel (n : Nat) :
    ∀ (f1 f2 : Nat), n < f1 → n < f2 →
      Nat.toDigitsCore 10 f1 n [] = Nat.toDigitsCore 10 f2 n [] := by
  induction n using Nat.strong_induction_on with
  | _ n ih =>
    intro f1 f2 h1 h2
    match f1, f2 with
    | f1 + 1, f2 + 1 =>
      simp only [Nat.toDigitsCore]
      by_cases h : n / 10 = 0
      · simp [h]
      · rw [if_neg h, if_neg h,
          toDigitsCore_append 10 f1 (n / 10) [Nat.digitChar (n % 10)],
          toDigitsCore_append 10 f2 (n / 10) [Nat.digitChar (n % 10)]]
        have hdiv : n / 10 < n := Nat.div_lt_self
          (Nat.pos_of_ne_zero (fun hn => h (by simp [hn]))) (by omega)
        rw [ih (n / 10) hdiv f1 f2 (by omega) (by omega)]

theorem digitsVal_toDigits (n : Nat) : digitsVal (Nat.toDigits 10 n) = n := by
  induction n using Nat.strong_induction_on with
  | _ n ih =>
    simp only [Nat.toDigits, Nat.toDigitsCore]
    by_cases h : n / 10 = 0
    · rw [if_pos h]
      have hn : n < 10 := by omega
      have hmod : n % 10 = n := Nat.mod_eq_of_lt hn
      simp [digitsVal, hmod, charVal_digitChar n hn]
    · rw [if_neg h,
        toDigitsCore_append 10 n (n / 10) [Nat.digitChar (n % 10)]]
      have hdiv : n / 10 < n := Nat.div_lt_self
        (Nat.pos_of_ne_zero (fun hn => h (by simp [hn]))) (by omega)
      rw [digitsVal_append_singleton,
        toDigitsCore_fuel (n / 10) n (n / 10 + 1) (by omega) (by omega)]
      have hval : digitsVal (Nat.toDigitsCore 10 (n / 10 + 1) (n / 10) []) = n / 10 :=
        ih (n / 10) hdiv
      rw [hval, charVal_digitChar (n % 10) (Nat.mod_lt n (by omega))]
      omega

theorem reprNat_injective : Function.Injective Nat.repr := by
  intro a b h
  have hdata : Nat.toDigits 10 a = Nat.toDigits 10 b := by
    have h2 := congrArg String.data h
    simpa [Nat.repr, List.asString] using h2
  calc a = digitsVal (Nat.toDigits 10 a) := (digitsVal_toDigits a).symm
    _ = digitsVal (Nat.toDigits 10 b) := by rw [hdata]
    _ = b := digitsVal_toDigits b

theorem mkId_injective (fn : String) : Function.Injective (mkId fn) := by
  intro a b h
  have hdata := congrArg String.data h
  simp only [mkId, String.data_append, List.append_assoc,
    List.append_cancel_left_eq] at hdata
  apply reprNat_injective
  cases ha : Nat.repr a with
  | mk la =>
    cases hb : Nat.repr b with
    | mk lb =>
      rw [ha, hb] at hdata
      exact congrArg String.mk (by simpa using hdata)

/-! ## Lemmas about the collector passes -/

theorem mem_collectAux (f : STNode → Nat → List MutantInfo) :
    ∀ (nodes : List STNode) (i : Nat) (mu : MutantInfo),
      mu ∈ collectAux f nodes i → ∃ n ∈ nodes, ∃ j, mu ∈ f n j := by
  intro nodes
  induction nodes with
  | nil => intro i mu h; simp [collectAux] at h
  | cons n rest ih =>
    intro i mu h
    simp only [collectAux, List.mem_append] at h
    rcases h with h | h
    · exact ⟨n, List.mem_cons_self n rest, i, h⟩
    · obtain ⟨n2, hn2, j, hj⟩ := ih _ mu h
      exact ⟨n2, List.mem_cons_of_mem n hn2, j, hj⟩

theorem collectAux_length (f : STNode → Nat → List MutantInfo)
    (glen : STNode → Nat) (hlen : ∀ n i, (f n i).length = glen n) :
    ∀ (nodes : List STNode) (i : Nat),
      (collectAux f nodes i).length = (nodes.map glen).sum := by
  intro nodes
  induction nodes with
  | nil => intro i; simp [collectAux]
  | cons n rest ih =>
    intro i
    simp [collectAux, hlen, ih]

theorem mutantsFromReplacements_length (mk : String → Nat → MutantInfo) :
    ∀ (l : List String) (i : Nat), (mutantsFromReplacements mk l i).length = l.length := by
  intro l
  induction l with
  | nil => intro i; rfl
  | cons r rest ih => intro i; simp [mutantsFromReplacements, ih]

theorem mutantsFromReplacements_map_ids (mk : String → Nat → MutantInfo)
    (fn : String) (hmk : ∀ r k, (mk r k).id = mkId fn k) :
    ∀ (l : List String) (i : Nat),
      (mutantsFromReplacements mk l i).map (fun mu => mu.id)
        = (List.range l.length).map (fun k => mkId fn (i + k + 1)) := by
  intro l
  induction l with
  | nil => intro i; rfl
  | cons r rest ih =>
    intro i
    simp only [mutantsFromReplacements, List.map_cons, hmk, List.length_cons,
      List.range_succ_eq_map, List.map_map]
    rw [ih (i + 1)]
    refine congrArg₂ List.cons rfl ?_
    apply List.map_congr_left
    intro k _
    simp only [Function.comp]
    have : i + 1 + k + 1 = i + (k + 1) + 1 := by omega
    rw [this]

/-- The per-node mutant lists have length independent of the counter. -/
theorem binaryMutantsForNode_length (sf : SourceFile) (fn : String)
    (n : STNode) (i : Nat) :
    (binaryMutantsForNode sf fn n i).length
      = (binaryMutantsForNode sf fn n 0).length := by
  cases hk : n.kind with
  | binaryExpr tok =>
    simp only [binaryMutantsForNode, hk]
    cases BINARY_OPERATOR_MUTATIONS tok.text with
    | none => rfl
    | some muts => rw [mutantsFromReplacements_length, mutantsFromReplacements_length]
  | prefixUnary k => simp [binaryMutantsForNode, hk]
  | boolLit => simp [binaryMutantsForNode, hk]
  | ifStmt c => simp [binaryMutantsForNode, hk]
  | other => simp [binaryMutantsForNode, hk]

theorem unaryMutantsForNode_length (sf : SourceFile) (fn : String)
    (n : STNode) (i : Nat) :
    (unaryMutantsForNode sf fn n i).length
      = (unaryMutantsForNode sf fn n 0).length := by
  cases hk : n.kind with
  | prefixUnary k =>
    simp only [unaryMutantsForNode, hk]
    cases UNARY_OPERATOR_MUTATIONS k with
    | none => rfl
    | some entry => rw [mutantsFromReplacements_length, mutantsFromReplacements_length]
  | binaryExpr tok => simp [unaryMutantsForNode, hk]
  | boolLit => simp [unaryMutantsForNode, hk]
  | ifStmt c => simp [unaryMutantsForNode, hk]
  | other => simp [unaryMutantsForNode, hk]

theorem booleanMutantsForNode_length (sf : SourceFile) (fn : String)
    (n : STNode) (i : Nat) :
    (booleanMutantsForNode sf fn n i).length
      = (booleanMutantsForNode sf fn n 0).length := by
  cases hk : n.kind <;> simp [booleanMutantsForNode, hk]

/-- Whether a node is classified as an `if` statement. -/
def isIfStmtNode (n : STNode) : Bool :=
  match n.kind with
  | NodeKind.ifStmt _ => true
  | _ => false

theorem conditionalMutantsForNode_length (sf : SourceFile) (fn : String)
    (n : STNode) (i : Nat) :
    (conditionalMutantsForNode sf fn n i).length
      = if isIfStmtNode n then 2 else 0 := by
  cases hk : n.kind <;> simp [conditionalMutantsForNode, isIfStmtNode, hk]

/-- Ids produced per node: the binary pass. -/
theorem binaryMutantsForNode_map_ids (sf : SourceFile) (fn : String)
    (n : STNode) (i : Nat) :
    (binaryMutantsForNode sf fn n i).map (fun mu => mu.id)
      = (List.range (binaryMutantsForNode sf fn n i).length).map
          (fun k => mkId fn (i + k + 1)) := by
  cases hk : n.kind with
  | binaryExpr tok =>
    simp only [binaryMutantsForNode, hk]
    cases BINARY_OPERATOR_MUTATIONS tok.text with
    | none => rfl
    | some muts =>
      rw [mutantsFromReplacements_length,
        mutantsFromReplacements_map_ids _ fn (fun r k => rfl)]
  | prefixUnary k => simp [binaryMutantsForNode, hk]
  | boolLit => simp [binaryMutantsForNode, hk]
  | ifStmt c => simp [binaryMutantsForNode, hk]
  | other => simp [binaryMutantsForNode, hk]

theorem unaryMutantsForNode_map_ids (sf : SourceFile) (fn : String)
    (n : STNode) (i : Nat) :
    (unaryMutantsForNode sf fn n i).map (fun mu => mu.id)
      = (List.range (unaryMutantsForNode sf fn n i).length).map
          (fun k => mkId fn (i + k + 1)) := by
  cases hk : n.kind with
  | prefixUnary k =>
    simp only [unaryMutantsForNode, hk]
    cases UNARY_OPERATOR_MUTATIONS k with
    | none => rfl
    | some entry =>
      rw [mutantsFromReplacements_length,
        mutantsFromReplacements_map_ids _ fn (fun r k => rfl)]
  | binaryExpr tok => simp [unaryMutantsForNode, hk]
  | boolLit => simp [unaryMutantsForNode, hk]
  | ifStmt c => simp [unaryMutantsForNode, hk]
  | other => simp [unaryMutantsForNode, hk]

theorem booleanMutantsForNode_map_ids (sf : SourceFile) (fn : String)
    (n : STNode) (i : Nat) :
    (booleanMutantsForNode sf fn n i).map (fun mu => mu.id)
      = (List.range (booleanMutantsForNode sf fn n i).length).map
          (fun k => mkId fn (i + k + 1)) := by
  cases hk : n.kind <;> simp [booleanMutantsForNode, hk, List.range_succ]

theorem conditionalMutantsForNode_map_ids (sf : SourceFile) (fn : String)
    (n : STNode) (i : Nat) :
    (conditionalMutantsForNode sf fn n i).map (fun mu => mu.id)
      = (List.range (conditionalMutantsForNode sf fn n i).length).map
          (fun k => mkId fn (i + k + 1)) := by
  cases hk : n.kind <;>
    simp [conditionalMutantsForNode, hk, List.range_succ, Nat.add_assoc]

theorem collectAux_map_ids (f : STNode → Nat → List MutantInfo) (fn : String)
    (hf : ∀ n i, (f n i).map (fun mu => mu.id)
        = (List.range (f n i).length).map (fun k => mkId fn (i + k + 1))) :
    ∀ (nodes : List STNode) (i : Nat),
      (collectAux f nodes i).map (fun mu => mu.id)
        = (List.range (collectAux f nodes i).length).map
            (fun k => mkId fn (i + k + 1)) := by
  intro nodes
  induction nodes with
  | nil => intro i; rfl
  | cons n rest ih =>
    intro i
    simp only [collectAux, List.map_append, List.length_append]
    rw [hf n i, ih (i + (f n i).length), List.range_add, List.map_append,
      List.map_map]
    refine congrArg₂ List.append rfl ?_
    apply List.map_congr_left
    intro k _
    simp only [Function.comp]
    have : i + (f n i).length + k + 1 = i + ((f n i).length + k) + 1 := by omega
    rw [this]

/-- Cross-category composition of the id characterization. -/
theorem map_ids_append (xs ys : List MutantInfo) (fn : String) (i : Nat)
    (hx : xs.map (fun mu => mu.id)
      = (List.range xs.length).map (fun k => mkId fn (i + k + 1)))
    (hy : ys.map (fun mu => mu.id)
      = (List.range ys.length).map (fun k => mkId fn (i + xs.length + k + 1))) :
    (xs ++ ys).map (fun mu => mu.id)
      = (List.range (xs ++ ys).length).map (fun k => mkId fn (i + k + 1)) := by
  rw [List.map_append, List.length_append, List.range_add, List.map_append, hx, hy,
    List.map_map]
  refine congrArg₂ List.append rfl ?_
  apply List.map_congr_left
  intro k _
  simp only [Function.comp]
  have : i + xs.length + k + 1 = i + (xs.length + k) + 1 := by omega
  rw [this]

/-- Ids across one whole file: `basename-1`, `basename-2`, ... in
production order. -/
theorem collectMutantsForFile_map_ids (sf : SourceFile) (fn : String) :
    (collectMutantsForFile sf fn).map (fun mu => mu.id)
      = (List.range (collectMutantsForFile sf fn).length).map
          (fun k => mkId fn (k + 1)) := by
  have hb := collectAux_map_ids (binaryMutantsForNode sf fn) fn
    (binaryMutantsForNode_map_ids sf fn) sf.nodes 0
  have hu := collectAux_map_ids (unaryMutantsForNode sf fn) fn
    (unaryMutantsForNode_map_ids sf fn) sf.nodes
  have hbo := collectAux_map_ids (booleanMutantsForNode sf fn) fn
    (booleanMutantsForNode_map_ids sf fn) sf.nodes
  have hc := collectAux_map_ids (conditionalMutantsForNode sf fn) fn
    (conditionalMutantsForNode_map_ids sf fn) sf.nodes
  have key : (collectMutantsForFile sf fn).map (fun mu => mu.id)
      = (List.range (collectMutantsForFile sf fn).length).map
          (fun k => mkId fn (0 + k + 1)) := by
    simp only [collectMutantsForFile, collectBinaryMutations, collectUnaryMutations,
      collectBooleanMutations, collectConditionalMutations]
    apply map_ids_append
    · apply map_ids_append
      · apply map_ids_append
        · exact hb
        · rw [Nat.zero_add]
          exact hu _
      · rw [List.length_append, Nat.zero_add]
        exact hbo _
    · rw [List.length_append, List.length_append, Nat.zero_add]
      exact hc _
  rw [key]
  apply List.map_congr_left
  intro k _
  rw [Nat.zero_add]

/-- Ids across one whole file are pairwise distinct. -/
theorem collectMutantsForFile_ids_nodup (sf : SourceFile) (fn : String) :
    ((collectMutantsForFile sf fn).map (fun mu => mu.id)).Nodup := by
  rw [collectMutantsForFile_map_ids]
  apply List.Nodup.map
  · intro a b hab
    have := mkId_injective fn hab
    omega
  · exact List.nodup_range _

theorem mutantsFromReplacements_forall (mk : String → Nat → MutantInfo)
    (P : MutantInfo → Prop) (h : ∀ r k, P (mk r k)) :
    ∀ (l : List String) (i : Nat), ∀ mu ∈ mutantsFromReplacements mk l i, P mu := by
  intro l
  induction l with
  | nil => intro i mu hmu; simp [mutantsFromReplacements] at hmu
  | cons r rest ih =>
    intro i mu hmu
    rcases List.mem_cons.mp hmu with rfl | hmu2
    · exact h r (i + 1)
    · exact ih (i + 1) mu hmu2

theorem mutantsFromReplacements_map_proj {α : Type} (mk : String → Nat → MutantInfo)
    (proj : MutantInfo → α) (g : String → α) (h : ∀ r k, proj (mk r k) = g r) :
    ∀ (l : List String) (i : Nat),
      (mutantsFromReplacements mk l i).map proj = l.map g := by
  intro l
  induction l with
  | nil => intro i; rfl
  | cons r rest ih =>
    intro i
    simp [mutantsFromReplacements, h, ih (i + 1)]

theorem sum_ite_two (p : STNode → Bool) (l : List STNode) :
    (l.map (fun n => if p n then 2 else 0)).sum = 2 * l.countP p := by
  induction l with
  | nil => simp
  | cons a l ih =>
    by_cases h : p a
    · simp [List.countP_cons, h, ih]
      omega
    · simp [List.countP_cons, h, ih]

theorem filter_head_eq_find (p : MutantInfo → Bool) (l : List MutantInfo) :
    (l.filter p).head? = l.find? p := by
  induction l with
  | nil => rfl
  | cons a t ih =>
    by_cases h : p a <;> simp [List.filter_cons, List.find?_cons, h, ih]

/-- Context and category of mutants produced per node, binary pass. -/
theorem binaryMutantsForNode_context (sf : SourceFile) (fn : String)
    (n : STNode) (j : Nat) (mu : MutantInfo)
    (h : mu ∈ binaryMutantsForNode sf fn n j) :
    mu.context = getContext sf n 2 ∧ mu.mutatorName ≠ "ConditionalRemoval" := by
  cases hk : n.kind with
  | binaryExpr tok =>
    rw [binaryMutantsForNode, hk] at h
    simp only at h
    cases hm : BINARY_OPERATOR_MUTATIONS tok.text with
    | none => rw [hm] at h; simp at h
    | some muts =>
      rw [hm] at h
      refine mutantsFromReplacements_forall _
        (fun x => x.context = getContext sf n 2 ∧ x.mutatorName ≠ "ConditionalRemoval")
        ?_ muts j mu h
      intro r k
      constructor
      · rfl
      · show (if ([">", "<", ">=", "<="] : List String).contains tok.text
            then "BoundaryCondition" else "BinaryOperator") ≠ "ConditionalRemoval"
        by_cases hb : ([">", "<", ">=", "<="] : List String).contains tok.text
        · rw [if_pos hb]; decide
        · rw [if_neg hb]; decide
  | prefixUnary k => rw [binaryMutantsForNode, hk] at h; simp at h
  | boolLit => rw [binaryMutantsForNode, hk] at h; simp at h
  | ifStmt c => rw [binaryMutantsForNode, hk] at h; simp at h
  | other => rw [binaryMutantsForNode, hk] at h; simp at h

/-- Context and category of mutants produced per node, unary pass. -/
theorem unaryMutantsForNode_context (sf : SourceFile) (fn : String)
    (n : STNode) (j : Nat) (mu : MutantInfo)
    (h : mu ∈ unaryMutantsForNode sf fn n j) :
    mu.context = getContext sf n 2 ∧ mu.mutatorName ≠ "ConditionalRemoval" := by
  cases hk : n.kind with
  | prefixUnary k =>
    rw [unaryMutantsForNode, hk] at h
    simp only at h
    cases hm : UNARY_OPERATOR_MUTATIONS k with
    | none => rw [hm] at h; simp at h
    | some entry =>
      rw [hm] at h
      refine mutantsFromReplacements_forall _
        (fun x => x.context = getContext sf n 2 ∧ x.mutatorName ≠ "ConditionalRemoval")
        ?_ entry.2 j mu h
      intro r kk
      refine ⟨rfl, ?_⟩
      show ("UnaryOperator" : String) ≠ "ConditionalRemoval"
      decide
  | binaryExpr tok => rw [unaryMutantsForNode, hk] at h; simp at h
  | boolLit => rw [unaryMutantsForNode, hk] at h; simp at h
  | ifStmt c => rw [unaryMutantsForNode, hk] at h; simp at h
  | other => rw [unaryMutantsForNode, hk] at h; simp at h

/-- Context and category of mutants produced per node, boolean pass. -/
theorem booleanMutantsForNode_context (sf : SourceFile) (fn : String)
    (n : STNode) (j : Nat) (mu : MutantInfo)
    (h : mu ∈ booleanMutantsForNode sf fn n j) :
    mu.context = getContext sf n 2 ∧ mu.mutatorName ≠ "ConditionalRemoval" := by
  cases hk : n.kind with
  | boolLit =>
    rw [booleanMutantsForNode, hk] at h
    simp only [List.mem_singleton] at h
    subst h
    refine ⟨rfl, ?_⟩
    show ("BooleanLiteral" : String) ≠ "ConditionalRemoval"
    decide
  | binaryExpr tok => rw [booleanMutantsForNode, hk] at h; simp at h
  | prefixUnary k => rw [booleanMutantsForNode, hk] at h; simp at h
  | ifStmt c => rw [booleanMutantsForNode, hk] at h; simp at h
  | other => rw [booleanMutantsForNode, hk] at h; simp at h

/-- Context and category of mutants produced per node, conditional pass. -/
theorem conditionalMutantsForNode_context (sf : SourceFile) (fn : String)
    (n : STNode) (j : Nat) (mu : MutantInfo)
    (h : mu ∈ conditionalMutantsForNode sf fn n j) :
    mu.context = getContext sf n 3 ∧ mu.mutatorName = "ConditionalRemoval" := by
  cases hk : n.kind with
  | ifStmt c =>
    rw [conditionalMutantsForNode, hk] at h
    simp only [List.mem_cons, List.mem_singleton, List.not_mem_nil, or_false] at h
    rcases h with rfl | rfl
    · exact ⟨rfl, rfl⟩
    · exact ⟨rfl, rfl⟩
  | binaryExpr tok => rw [conditionalMutantsForNode, hk] at h; simp at h
  | prefixUnary k => rw [conditionalMutantsForNode, hk] at h; simp at h
  | boolLit => rw [conditionalMutantsForNode, hk] at h; simp at h
  | other => rw [conditionalMutantsForNode, hk] at h; simp at h

/-- The per-file loop errors whenever some candidate fails to parse. -/
theorem generateMutantsLoop_error (fs : List CandidateFile)
    (h : ∃ f ∈ fs, f.parsed = none) :
    ∃ e, generateMutantsLoop fs = Except.error e := by
  induction fs with
  | nil => simp at h
  | cons g rest ih =>
    cases hp : g.parsed with
    | none => exact ⟨g.path, by simp [generateMutantsLoop, hp]⟩
    | some sf =>
      obtain ⟨f, hf, hfp⟩ := h
      rcases List.mem_cons.mp hf with rfl | hf2
      · rw [hp] at hfp; exact absurd hfp (by simp)
      · obtain ⟨e, he⟩ := ih ⟨f, hf2, hfp⟩
        exact ⟨e, by simp [generateMutantsLoop, hp, he]⟩

/-! ## Concrete fixtures used by witnesses and counterexamples -/

/-- Operator token of the fixture expression `n > 0`. -/
def gtTok : TokenInfo := { text := ">", startPos := 2, endPos := 3 }

/-- Binary-expression node of the fixture `n > 0`. -/
def gtNode : STNode :=
  { kind := NodeKind.binaryExpr gtTok, text := "n > 0", startPos := 0, endPos := 5 }

/-- One-line fixture file containing `n > 0`. -/
def sfGt : SourceFile := { fullText := "n > 0", nodes := [gtNode] }

/-- Guard condition of the fixture `if (value < min) { return min; }`. -/
def condTok : TokenInfo := { text := "value < min", startPos := 4, endPos := 15 }

/-- `if`-statement node of the conditional fixture. -/
def ifNode : STNode :=
  { kind := NodeKind.ifStmt condTok, text := "if (value < min) { return min; }",
    startPos := 0, endPos := 32 }

/-- Fixture file with a single `if` statement. -/
def sfIf : SourceFile :=
  { fullText := "if (value < min) { return min; }", nodes := [ifNode] }

/-- Fixture file `const ok = true;` with one boolean literal. -/
def sfBool : SourceFile :=
  { fullText := "const ok = true;",
    nodes := [{ kind := NodeKind.boolLit, text := "true", startPos := 11, endPos := 15 }] }

/-- Candidate `a/x.ts`: exists and parses to the boolean fixture. -/
def fileDupA : CandidateFile :=
  { path := "a/x.ts", existsOnDisk := true, parsed := some sfBool }

/-- Candidate `b/x.ts`: a distinct file sharing the basename `x.ts`. -/
def fileDupB : CandidateFile :=
  { path := "b/x.ts", existsOnDisk := true, parsed := some sfBool }

/-- Candidate that exists but whose content the tree provider rejects. -/
def badFile : CandidateFile :=
  { path := "bad.ts", existsOnDisk := true, parsed := none }

/-- Candidate that exists and parses. -/
def goodFile : CandidateFile :=
  { path := "good.ts", existsOnDisk := true, parsed := some sfBool }

/-- Candidate that does not exist on disk. -/
def ghostFile : CandidateFile :=
  { path := "ghost.ts", existsOnDisk := false, parsed := none }

/-- The flat mutant list of a `generateMutants` run, `[]` on error. -/
def resultMutants (files : List CandidateFile) : List MutantInfo :=
  match generateMutants files with
  | Except.ok l => l
  | Except.error _ => []

/-- One-line fixture `a + b` whose only node sits on the first and last
line of the file, so the context window is clamped on both sides. -/
def plusNode : STNode :=
  { kind := NodeKind.binaryExpr { text := "+", startPos := 2, endPos := 3 },
    text := "a + b", startPos := 0, endPos := 5 }

/-- The one-line source file around `plusNode`. -/
def sfPlus : SourceFile := { fullText := "a + b", nodes := [plusNode] }

/-- The first mutant the binary pass produces for `n > 0`. -/
def gtMutant : MutantInfo := mkBinaryMutant sfGt "positive.ts" gtNode gtTok ">=" 1

def locLine1 : Location :=
  { start := { line := 1, column := 3 }, stop := { line := 1, column := 4 } }

def locLine5 : Location :=
  { start := { line := 5, column := 7 }, stop := { line := 5, column := 8 } }

/-- A boundary mutant in `calc.ts`. -/
def wm1 : MutantInfo :=
  { id := "calc.ts-1", fileName := "calc.ts", mutatorName := "BoundaryCondition",
    original := ">", replacement := ">=", location := locLine1,
    context := "return n > 0;",
    description := "Change boundary: \">\" to \">=\"",
    expressionText := some "n > 0" }

/-- The same bug pattern in another file at another location, with
differing whitespace in the expression text. -/
def wm2 : MutantInfo :=
  { id := "util.ts-4", fileName := "lib/util.ts", mutatorName := "BoundaryCondition",
    original := ">", replacement := ">=", location := locLine5,
    context := "if (n  >  0) return;",
    description := "Change boundary: \">\" to \">=\"",
    expressionText := some "n  >  0" }

/-- A mutant with a different replacement, hence a different group. -/
def wm3 : MutantInfo :=
  { id := "calc.ts-2", fileName := "calc.ts", mutatorName := "BoundaryCondition",
    original := ">", replacement := "<", location := locLine1,
    context := "return n > 0;",
    description := "Change boundary: \">\" to \"<\"",
    expressionText := some "n > 0" }

/-- Grouping fixture sequence. -/
def wms4 : List MutantInfo := [wm1, wm2, wm3]

/-- The group that `wm1` and `wm2` collapse into. -/
def wgroupA : MutantGroup :=
  { signature := "BoundaryCondition|>|>=|n > 0",
    mutatorName := "BoundaryCondition",
    original := ">", replacement := ">=",
    description := "Change boundary: \">\" to \">=\"",
    expressionText := "n > 0",
    instances := [wm1, wm2] }

/-- Signature-collision fixture: `original = "x|y"`, `replacement = "z"`. -/
def collideM1 : MutantInfo :=
  { id := "m.ts-1", fileName := "m.ts", mutatorName := "ConditionalRemoval",
    original := "x|y", replacement := "z", location := locLine1,
    context := "x|y", description := "Remove conditional - always take z branch",
    expressionText := some "w" }

/-- Signature-collision fixture: `original = "x"`, `replacement = "y|z"`;
the `|`-joined signature string coincides with `collideM1`'s. -/
def collideM2 : MutantInfo :=
  { id := "m.ts-2", fileName := "m.ts", mutatorName := "ConditionalRemoval",
    original := "x", replacement := "y|z", location := locLine5,
    context := "x", description := "Remove conditional - always take y|z branch",
    expressionText := some "w" }

/-- A mutant whose expression text is present but empty. -/
def wm10a : MutantInfo :=
  { id := "e.ts-1", fileName := "e.ts", mutatorName := "UnaryOperator",
    original := "!", replacement := "(removed)", location := locLine1,
    context := "!ok", description := "Remove unary operator \"!\"",
    expressionText := some "" }

/-- A mutant with no expression text and the same
(mutatorKind, original, replacement). -/
def wm10b : MutantInfo :=
  { id := "f.ts-1", fileName := "f.ts", mutatorName := "UnaryOperator",
    original := "!", replacement := "(removed)", location := locLine5,
    context := "!done", description := "Remove unary operator \"!\"",
    expressionText := none }

/-! ## Claim theorems -/

theorem boundary_case (sf : SourceFile) (fn : String) (node : STNode)
    (tok : TokenInfo) (i : Nat) (muts : List String)
    (hk : node.kind = NodeKind.binaryExpr tok)
    (hm : BINARY_OPERATOR_MUTATIONS tok.text = some muts)
    (hcontains : ([">", "<", ">=", "<="] : List String).contains tok.text = true)
    (hlen : muts.length = 3)
    (hperm : muts.Perm
      (([">", "<", ">=", "<="] : List String).filter (fun o => o ≠ tok.text))) :
    (binaryMutantsForNode sf fn node i).length = 3
    ∧ (∀ mu ∈ binaryMutantsForNode sf fn node i,
        mu.mutatorName = "BoundaryCondition" ∧ mu.original = tok.text)
    ∧ ((binaryMutantsForNode sf fn node i).map (fun mu => mu.replacement)).Perm
        (([">", "<", ">=", "<="] : List String).filter (fun o => o ≠ tok.text)) := by
  have key : binaryMutantsForNode sf fn node i
      = mutantsFromReplacements (mkBinaryMutant sf fn node tok) muts i := by
    simp only [binaryMutantsForNode, hk, hm]
  refine ⟨?_, ?_, ?_⟩
  · rw [key, mutantsFromReplacements_length]
    exact hlen
  · rw [key]
    refine mutantsFromReplacements_forall _
      (fun x => x.mutatorName = "BoundaryCondition" ∧ x.original = tok.text)
      ?_ muts i
    intro r k
    refine ⟨?_, rfl⟩
    show (if ([">", "<", ">=", "<="] : List String).contains tok.text
        then "BoundaryCondition" else "BinaryOperator") = "BoundaryCondition"
    simp only [hcontains]
    rfl
  · rw [key, mutantsFromReplacements_map_proj (mkBinaryMutant sf fn node tok)
      (fun mu => mu.replacement) (fun r => r) (fun r k => rfl)]
    simpa using hperm

/-- C1: for every binary expression whose operator is one of
`>`, `<`, `>=`, `<=`, the binary-expression pass produces exactly 3
mutants for that expression, each with mutatorKind `BoundaryCondition`,
and their replacements are exactly the other three operators of the
relational family (order-independent). -/
theorem claim1_boundary_operators_three_mutants (sf : SourceFile) (fn : String)
    (node : STNode) (tok : TokenInfo) (i : Nat)
    (hk : node.kind = NodeKind.binaryExpr tok)
    (hop : tok.text ∈ ([">", "<", ">=", "<="] : List String)) :
    (binaryMutantsForNode sf fn node i).length = 3
    ∧ (∀ mu ∈ binaryMutantsForNode sf fn node i,
        mu.mutatorName = "BoundaryCondition" ∧ mu.original = tok.text)
    ∧ ((binaryMutantsForNode sf fn node i).map (fun mu => mu.replacement)).Perm
        (([">", "<", ">=", "<="] : List String).filter (fun o => o ≠ tok.text)) := by
  simp only [List.mem_cons, List.mem_singleton, List.not_mem_nil, or_false] at hop
  rcases hop with h | h | h | h
  · exact boundary_case sf fn node tok i [">=", "<", "<="] hk
      (by rw [h]; decide) (by rw [h]; decide) rfl (by rw [h]; decide)
  · exact boundary_case sf fn node tok i ["<=", ">", ">="] hk
      (by rw [h]; decide) (by rw [h]; decide) rfl (by rw [h]; decide)
  · exact boundary_case sf fn node tok i [">", "<", "<="] hk
      (by rw [h]; decide) (by rw [h]; decide) rfl (by rw [h]; decide)
  · exact boundary_case sf fn node tok i ["<", ">", ">="] hk
      (by rw [h]; decide) (by rw [h]; decide) rfl (by rw [h]; decide)

/-- Witness for C1 at the fixture `n > 0`. -/
theorem claim1_witness :
    (binaryMutantsForNode sfGt "positive.ts" gtNode 0).length = 3
    ∧ ((binaryMutantsForNode sfGt "positive.ts" gtNode 0).map
        (fun mu => mu.replacement)).Perm
        (([">", "<", ">=", "<="] : List String).filter (fun o => o ≠ gtTok.text)) := by
  have h := claim1_boundary_operators_three_mutants sfGt "positive.ts" gtNode gtTok 0
    rfl (by decide)
  exact ⟨h.1, h.2.2⟩

/-- C2: the conditional pass emits exactly 2 mutants per `if` statement
(so its output length is twice the number of `if` nodes), both of
mutatorKind `ConditionalRemoval` with the guard condition's text as
`original`, one replacement forcing the if-branch and one forcing the
else-branch, and with location spanning exactly the condition
expression. -/
theorem claim2_conditional_two_mutants (sf : SourceFile) (fn : String) (startId : Nat) :
    (collectConditionalMutations sf fn startId).length
      = 2 * sf.nodes.countP isIfStmtNode
    ∧ ∀ (node : STNode) (cond : TokenInfo) (i : Nat),
        node.kind = NodeKind.ifStmt cond →
        (conditionalMutantsForNode sf fn node i).map
            (fun mu => (mu.mutatorName, mu.original, mu.replacement))
          = [("ConditionalRemoval", cond.text, "true (always if-branch)"),
             ("ConditionalRemoval", cond.text, "false (always else-branch)")]
        ∧ (conditionalMutantsForNode sf fn node i).map (fun mu => mu.location)
          = [{ start := getLineAndColumnAtPos sf.fullText cond.startPos,
               stop := getLineAndColumnAtPos sf.fullText cond.endPos },
             { start := getLineAndColumnAtPos sf.fullText cond.startPos,
               stop := getLineAndColumnAtPos sf.fullText cond.endPos }] := by
  constructor
  · rw [collectConditionalMutations,
      collectAux_length _ (fun n => if isIfStmtNode n then 2 else 0)
        (conditionalMutantsForNode_length sf fn), sum_ite_two]
  · intro node cond i hkk
    constructor
    · simp only [conditionalMutantsForNode, hkk]
      rfl
    · simp only [conditionalMutantsForNode, hkk]
      rfl

/-- Witness for C2 at the fixture `if (value < min) { return min; }`. -/
theorem claim2_witness :
    (collectConditionalMutations sfIf "clamp.ts" 0).length
      = 2 * sfIf.nodes.countP isIfStmtNode
    ∧ (conditionalMutantsForNode sfIf "clamp.ts" ifNode 0).map
        (fun mu => (mu.mutatorName, mu.original, mu.replacement))
      = [("ConditionalRemoval", "value < min", "true (always if-branch)"),
         ("ConditionalRemoval", "value < min", "false (always else-branch)")] := by
  have h := claim2_conditional_two_mutants sfIf "clamp.ts" 0
  refine ⟨h.1, ?_⟩
  rw [(h.2 ifNode condTok 0 rfl).1]
  rfl

/-- C3 counterexample: the signature is the `|`-joined string, so the two
concrete mutants with components `original = "x|y", replacement = "z"` and
`original = "x", replacement = "y|z"` (same mutatorKind and normalized
expression text `"w"`) get identical signatures and land in the same
group although their `original` components differ — the claimed "only if"
direction of the componentwise-equality grouping invariant is false. -/
theorem claim3_counterexample_signature_collision :
    (∃ g ∈ groupMutantsBySignature [collideM1, collideM2],
        collideM1 ∈ g.instances ∧ collideM2 ∈ g.instances)
    ∧ collideM1.original ≠ collideM2.original := by
  exact ⟨by decide, by decide⟩

/-- C3 (amended): two mutants of the input land in the same group if and
only if their `|`-joined signature strings are equal, and the signature
ignores `location` and `fileName`, so differing only in those never
changes grouping.  Componentwise equality of (mutatorKind, original,
replacement, whitespace-normalized expressionText) is sufficient but not
necessary: components containing the delimiter `|` can collide. -/
theorem claim3_grouping_by_signature_string (ms : List MutantInfo)
    (m1 m2 : MutantInfo) (h1 : m1 ∈ ms) (h2 : m2 ∈ ms) :
    ((∃ g ∈ groupMutantsBySignature ms, m1 ∈ g.instances ∧ m2 ∈ g.instances)
      ↔ mkSignature m1 = mkSignature m2)
    ∧ ∀ (loc : Location) (fn2 : String),
        mkSignature { m1 with location := loc, fileName := fn2 } = mkSignature m1 :=
  ⟨sameGroup_iff_signature ms m1 m2 h1 h2, fun _ _ => rfl⟩

/-- Witness for the amended C3 at the fixture sequence. -/
theorem claim3_witness :
    ((∃ g ∈ groupMutantsBySignature wms4, wm1 ∈ g.instances ∧ wm2 ∈ g.instances)
      ↔ mkSignature wm1 = mkSignature wm2)
    ∧ mkSignature { wm1 with location := locLine5, fileName := "elsewhere.ts" }
        = mkSignature wm1 := by
  have h := claim3_grouping_by_signature_string wms4 wm1 wm2 (by decide) (by decide)
  exact ⟨h.1, h.2 locLine5 "elsewhere.ts"⟩

/-- C4: the groups returned by `groupMutantsBySignature` partition the
input: instance counts sum to the input length, every group has at least
one instance, and every input mutant lies in exactly one group's
instances. -/
theorem claim4_grouping_partition (ms : List MutantInfo) :
    (((groupMutantsBySignature ms).map (fun g => g.instances.length)).sum = ms.length)
    ∧ (∀ g ∈ groupMutantsBySignature ms, g.instances ≠ [])
    ∧ (∀ m ∈ ms, ∃! g, g ∈ groupMutantsBySignature ms ∧ m ∈ g.instances) := by
  refine ⟨?_, ?_, ?_⟩
  · have hlen := (groupMutants_join_perm ms).length_eq
    rw [List.length_flatten, List.map_map] at hlen
    exact hlen
  · intro g hg
    rw [(groupMutants_characterization ms).2 g hg]
    have hsig : g.signature ∈ (groupMutantsBySignature ms).map (fun g2 => g2.signature) :=
      List.mem_map_of_mem _ hg
    rw [(groupMutants_characterization ms).1, mem_firstSeen] at hsig
    obtain ⟨m, hm, hms⟩ := List.mem_map.mp hsig
    intro hnil
    rw [List.filter_eq_nil_iff] at hnil
    exact hnil m hm (by simp [hms])
  · intro m hm
    obtain ⟨g, hg, hge⟩ := sig_mem_groups ms m hm
    refine ⟨g, ⟨hg, (mem_instances_iff ms g hg m).mpr ⟨hm, hge.symm⟩⟩, ?_⟩
    rintro g2 ⟨hg2, hm2⟩
    have hsig2 := ((mem_instances_iff ms g2 hg2 m).mp hm2).2
    have hnd : ((groupMutantsBySignature ms).map (fun g2 => g2.signature)).Nodup := by
      rw [(groupMutants_characterization ms).1]
      exact firstSeen_nodup _
    refine List.inj_on_of_nodup_map hnd hg2 hg ?_
    rw [hge, ← hsig2]

/-- Witness for C4 at the fixture sequence. -/
theorem claim4_witness :
    (((groupMutantsBySignature wms4).map (fun g => g.instances.length)).sum
      = wms4.length)
    ∧ wgroupA.instances ≠ []
    ∧ (∃! g, g ∈ groupMutantsBySignature wms4 ∧ wm1 ∈ g.instances) := by
  have h := claim4_grouping_partition wms4
  exact ⟨h.1, h.2.1 wgroupA (by decide), h.2.2 wm1 (by decide)⟩

/-- C5: within one file, mutants come out in the fixed category order
with the counter seeded by the earlier categories' counts, so the id
sequence is exactly `basename-1 … basename-n` over the whole per-file
output (strictly increasing counters, ids pairwise distinct, production
order recoverable from ids). -/
theorem claim5_per_file_id_order (sf : SourceFile) (fn : String) :
    ((collectMutantsForFile sf fn).map (fun mu => mu.id)
      = (List.range (collectMutantsForFile sf fn).length).map
          (fun k => mkId fn (k + 1)))
    ∧ ((collectMutantsForFile sf fn).map (fun mu => mu.id)).Nodup :=
  ⟨collectMutantsForFile_map_ids sf fn, collectMutantsForFile_ids_nodup sf fn⟩

/-- C6: groups appear in the order each distinct signature is first seen
in the input, and every group's first instance is the earliest input
mutant with that signature. -/
theorem claim6_first_seen_order (ms : List MutantInfo) :
    ((groupMutantsBySignature ms).map (fun g => g.signature)
        = firstSeen (ms.map mkSignature))
    ∧ ∀ g ∈ groupMutantsBySignature ms,
        g.instances.head? = ms.find? (fun mm => mkSignature mm = g.signature) := by
  refine ⟨(groupMutants_characterization ms).1, ?_⟩
  intro g hg
  rw [(groupMutants_characterization ms).2 g hg, filter_head_eq_find]

/-- Witness for C6 at the fixture sequence. -/
theorem claim6_witness :
    ((groupMutantsBySignature wms4).map (fun g => g.signature)
        = firstSeen (wms4.map mkSignature))
    ∧ wgroupA.instances.head?
        = wms4.find? (fun mm => mkSignature mm = wgroupA.signature) := by
  have h := claim6_first_seen_order wms4
  exact ⟨h.1, h.2 wgroupA (by decide)⟩

/-- C7 counterexample: in the one-line file `a + b` the mutated node spans
line 1 only; a window with exactly 2 lines of padding above and below
would contain 1 + 2 + 2 = 5 lines, but the context produced for the sole
(binary) mutant is the single clamped line. -/
theorem claim7_counterexample_clamped_context :
    (collectMutantsForFile sfPlus "ex.ts").map
        (fun mu => (splitOnChar '\n' mu.context.data).length) = [1]
    ∧ (1 : Nat) ≠ 1 + 2 + 2 := by
  exact ⟨by decide, by decide⟩

/-- C7 (amended): every mutant's context is the window of surrounding
source lines around the node that produced it, computed by `getContext`
with 2 lines of padding for binary/unary/boolean-literal mutations and 3
for conditional mutations, where the window is clamped to the file's
first and last line (so the padding is exactly 2 resp. 3 only when the
file extends that far).  The first four conjuncts bind the window to the
visited node in each pass; the last covers the whole per-file output,
with the witnessing node constrained to be the one whose visit produced
the mutant. -/
theorem claim7_context_window (sf : SourceFile) (fn : String)
    (node : STNode) (j : Nat) (mu : MutantInfo) :
    (mu ∈ binaryMutantsForNode sf fn node j → mu.context = getContext sf node 2)
    ∧ (mu ∈ unaryMutantsForNode sf fn node j → mu.context = getContext sf node 2)
    ∧ (mu ∈ booleanMutantsForNode sf fn node j → mu.context = getContext sf node 2)
    ∧ (mu ∈ conditionalMutantsForNode sf fn node j → mu.context = getContext sf node 3)
    ∧ (mu ∈ collectMutantsForFile sf fn → ∃ n ∈ sf.nodes, ∃ j2,
        (mu ∈ binaryMutantsForNode sf fn n j2 ∨ mu ∈ unaryMutantsForNode sf fn n j2
          ∨ mu ∈ booleanMutantsForNode sf fn n j2
          ∨ mu ∈ conditionalMutantsForNode sf fn n j2)
        ∧ mu.context = getContext sf n
            (if mu.mutatorName = "ConditionalRemoval" then 3 else 2)) := by
  refine ⟨fun h => (binaryMutantsForNode_context sf fn node j mu h).1,
    fun h => (unaryMutantsForNode_context sf fn node j mu h).1,
    fun h => (booleanMutantsForNode_context sf fn node j mu h).1,
    fun h => (conditionalMutantsForNode_context sf fn node j mu h).1, ?_⟩
  intro hmu
  simp only [collectMutantsForFile, collectBinaryMutations, collectUnaryMutations,
    collectBooleanMutations, collectConditionalMutations, List.mem_append] at hmu
  rcases hmu with ((hb | hu) | hbo) | hc
  · obtain ⟨n, hn, j2, hj⟩ := mem_collectAux _ _ _ mu hb
    obtain ⟨hcx, hname⟩ := binaryMutantsForNode_context sf fn n j2 mu hj
    exact ⟨n, hn, j2, Or.inl hj, by rw [if_neg hname]; exact hcx⟩
  · obtain ⟨n, hn, j2, hj⟩ := mem_collectAux _ _ _ mu hu
    obtain ⟨hcx, hname⟩ := unaryMutantsForNode_context sf fn n j2 mu hj
    exact ⟨n, hn, j2, Or.inr (Or.inl hj), by rw [if_neg hname]; exact hcx⟩
  · obtain ⟨n, hn, j2, hj⟩ := mem_collectAux _ _ _ mu hbo
    obtain ⟨hcx, hname⟩ := booleanMutantsForNode_context sf fn n j2 mu hj
    exact ⟨n, hn, j2, Or.inr (Or.inr (Or.inl hj)), by rw [if_neg hname]; exact hcx⟩
  · obtain ⟨n, hn, j2, hj⟩ := mem_collectAux _ _ _ mu hc
    obtain ⟨hcx, hname⟩ := conditionalMutantsForNode_context sf fn n j2 mu hj
    exact ⟨n, hn, j2, Or.inr (Or.inr (Or.inr hj)), by rw [if_pos hname]; exact hcx⟩

/-- Witness for the amended C7 at the `n > 0` fixture: the boundary mutant
produced by visiting `gtNode` has the 2-line-padding window around
`gtNode` itself, both in the per-node form and in the per-file form. -/
theorem claim7_witness :
    gtMutant.context = getContext sfGt gtNode 2
    ∧ ∃ n ∈ sfGt.nodes, ∃ j2,
        (gtMutant ∈ binaryMutantsForNode sfGt "positive.ts" n j2
          ∨ gtMutant ∈ unaryMutantsForNode sfGt "positive.ts" n j2
          ∨ gtMutant ∈ booleanMutantsForNode sfGt "positive.ts" n j2
          ∨ gtMutant ∈ conditionalMutantsForNode sfGt "positive.ts" n j2)
        ∧ gtMutant.context = getContext sfGt n
            (if gtMutant.mutatorName = "ConditionalRemoval" then 3 else 2) := by
  have h := claim7_context_window sfGt "positive.ts" gtNode 0 gtMutant
  exact ⟨h.1 (by decide), h.2.2.2.2 (by decide)⟩

/-- C8 counterexample: a candidate file that exists but fails to parse is
not silently excluded: the error propagates out of `generateMutants`, and
the remaining (parseable) file contributes nothing. -/
theorem claim8_counterexample_parse_error_propagates :
    generateMutants [badFile, goodFile] = Except.error "bad.ts" := by
  rfl

/-- C8 (amended): only files that do not exist on disk are silently
excluded from the aggregated run; a file that exists but cannot be parsed
makes the whole run fail with an error (no partial results for the
remaining files). -/
theorem claim8_file_error_semantics :
    (∀ (fs1 fs2 : List CandidateFile) (f : CandidateFile),
        f.existsOnDisk = false →
        generateMutants (fs1 ++ f :: fs2) = generateMutants (fs1 ++ fs2))
    ∧ (∀ (files : List CandidateFile) (f : CandidateFile),
        f ∈ files → f.existsOnDisk = true → f.parsed = none →
        ∃ e, generateMutants files = Except.error e) := by
  constructor
  · intro fs1 fs2 f hf
    simp [generateMutants, List.filter_append, List.filter_cons, hf]
  · intro files f hf hex hp
    have hmem : f ∈ files.filter (fun f2 => f2.existsOnDisk) :=
      List.mem_filter.mpr ⟨hf, by simp [hex]⟩
    have hne : (files.filter (fun f2 => f2.existsOnDisk)).length ≠ 0 := by
      intro h0
      rw [List.length_eq_zero] at h0
      rw [h0] at hmem
      simp at hmem
    obtain ⟨e, he⟩ := generateMutantsLoop_error _ ⟨f, hmem, hp⟩
    exact ⟨e, by rw [generateMutants]; simp only [if_neg hne]; exact he⟩

/-- Witness for the amended C8. -/
theorem claim8_witness :
    generateMutants ([goodFile] ++ ghostFile :: [])
        = generateMutants ([goodFile] ++ [])
    ∧ ∃ e, generateMutants [badFile] = Except.error e := by
  have h := claim8_file_error_semantics
  exact ⟨h.1 [goodFile] [] ghostFile rfl, h.2 [badFile] badFile (by decide) rfl rfl⟩

/-- C9: every collector id is `basename(fileName) ++ "-" ++ (1-based
counter)`, so id uniqueness is only per file: aggregating the two
distinct candidate files `a/x.ts` and `b/x.ts` (same basename) yields two
distinct mutants both carrying the id `x.ts-1`. -/
theorem claim9_basename_ids_and_cross_file_collision :
    (∀ (sf : SourceFile) (fn : String),
      (collectMutantsForFile sf fn).map (fun mu => mu.id)
        = (List.range (collectMutantsForFile sf fn).length).map
            (fun k => basename fn ++ "-" ++ Nat.repr (k + 1)))
    ∧ (resultMutants [fileDupA, fileDupB]).map (fun mu => (mu.id, mu.fileName))
        = [("x.ts-1", "a/x.ts"), ("x.ts-1", "b/x.ts")] := by
  constructor
  · intro sf fn
    exact collectMutantsForFile_map_ids sf fn
  · decide

/-- C10: a present-but-empty `expressionText` falls back to `original` in
the signature exactly like an absent one (the fallback tests JS
falsiness), so an empty-expression mutant and a missing-expression mutant
with the same (mutatorKind, original, replacement) get equal signatures
and land in the same group. -/
theorem claim10_empty_expression_fallback (ms : List MutantInfo)
    (m1 m2 : MutantInfo) (h1 : m1 ∈ ms) (h2 : m2 ∈ ms)
    (he1 : m1.expressionText = some "") (he2 : m2.expressionText = none)
    (hk : m1.mutatorName = m2.mutatorName) (ho : m1.original = m2.original)
    (hr : m1.replacement = m2.replacement) :
    mkSignature m1 = mkSignature m2
    ∧ ∃ g ∈ groupMutantsBySignature ms, m1 ∈ g.instances ∧ m2 ∈ g.instances := by
  have hsig : mkSignature m1 = mkSignature m2 := by
    simp [mkSignature, exprTextOrOriginal, he1, he2, hk, ho, hr]
  exact ⟨hsig, (sameGroup_iff_signature ms m1 m2 h1 h2).mpr hsig⟩

/-- Witness for C10 at the fixture pair. -/
theorem claim10_witness :
    mkSignature wm10a = mkSignature wm10b
    ∧ ∃ g ∈ groupMutantsBySignature [wm10a, wm10b],
        wm10a ∈ g.instances ∧ wm10b ∈ g.instances :=
  claim10_empty_expression_fallback [wm10a, wm10b] wm10a wm10b
    (by decide) (by decide) rfl rfl rfl rfl rfl

end MutGen
